import Mathlib

/-!
Verification of the conversation identity resolver and cumulative stream
translator of the longcat-web-api gateway.

The definitions below are a shallow embedding of the Go sources:

* `conversation/manager.go` (current revision, `src/unnamed/part_003`):
  `ConversationEntry`, `GenerateFingerprint`, `FindConversation`,
  `SetConversation`, `UpdateConversation`, `filterDuplicateMessages`,
  `hasExactPrefix`, `disambiguateByLastOriginal`, `messagesEqual`.
* `api/openai.go` (`src/unnamed/part_001`): `StreamProcessor`,
  `ProcessStream` (per-event body and loop), `convertToOpenAIFormat`,
  `OpenAIService.HandleNonStreamingResponse`.
* `api/claude.go`: `convertOpenAIToClaudeChunk`, `mapToClaudeStopReason`,
  `ClaudeService.HandleNonStreamingResponse`,
  `ClaudeService.HandleStreamingResponse`, `sendDefaultSequence`.

Modelling conventions:

* Go strings that are only compared for equality stay `String`; response
  text that is sliced byte-wise (`s[n:]`) is modelled as `List Char`
  (`Text` below), with `List.drop`/`++` for slicing and concatenation.
* The sha-256 based fingerprint is modelled as the message sequence
  itself: the digest is injective on distinct sequences (the collision
  probability is negligible and the spec treats it as zero), so the map
  keyed by hex digests behaves exactly like a map keyed by the sequences.
* Go maps are modelled as association lists with map semantics
  (`lookupTable`, `insertTable`, `eraseTable`); iteration order of a Go
  map is unspecified, so every theorem that depends on the order of
  entries is proved for each relevant order.
* The write-only `messageIndex` secondary table, wall-clock timestamps
  (`time.Now` becomes an explicit `now : Nat` argument), uuids (explicit
  `rid : String` argument) and the HTTP/channel plumbing are not read by
  any modelled operation and are omitted.
-/

/-- Character-list model of a Go byte string (used where the code slices). -/
abbrev Text := List Char

/-- Chat turn: `types.Message` with `Role` and `Content`. -/
structure Message where
  role : String
  content : String
deriving DecidableEq, Repr

/-- ConversationEntry of `conversation/manager.go`: session id, stored turns,
last assistant echo (`LastOriginal`), and access/creation times. -/
structure ConversationEntry where
  conversationID : String
  messages : List Message
  lastOriginal : List Message
  lastAccessed : Nat
  createdAt : Nat
deriving DecidableEq, Repr

/-- GenerateFingerprint digests a turn sequence; the sha-256 digest is
modelled as the sequence itself (collision-free digest, see header). -/
def GenerateFingerprint (messages : List Message) : List Message :=
  messages

/-- Conversation table: fingerprint -> entry, modelled as an association
list with map semantics. -/
abbrev ConvTable := List (List Message × ConversationEntry)

/-- Map lookup on the conversation table. -/
def lookupTable (k : List Message) (t : ConvTable) : Option ConversationEntry :=
  (t.find? (fun kv => kv.1 = k)).map (fun kv => kv.2)

/-- Map key removal on the conversation table. -/
def eraseTable (k : List Message) (t : ConvTable) : ConvTable :=
  t.filter (fun kv => kv.1 ≠ k)

/-- Map insert-or-replace on the conversation table. -/
def insertTable (k : List Message) (v : ConversationEntry) (t : ConvTable) : ConvTable :=
  (k, v) :: eraseTable k t

/-- messagesEqual compares two messages by role and content. -/
def messagesEqual (a b : Message) : Bool :=
  a.role = b.role ∧ a.content = b.content

/-- hasExactPrefix checks that the stored messages start with the exact
prefix, position by position. -/
def hasExactPrefix : List Message → List Message → Bool
  | _, [] => true
  | [], _ :: _ => false
  | m :: ms, p :: ps => messagesEqual m p && hasExactPrefix ms ps

/-- findConversationsWithPrefix collects every entry whose stored messages
have the given exact prefix (table iteration order made explicit). -/
def findConversationsWithPrefix (t : ConvTable) (pre : List Message) :
    List ConversationEntry :=
  (t.filter (fun kv => hasExactPrefix kv.2.messages pre)).map (fun kv => kv.2)

/-- disambiguateByLastOriginal filters the prefix candidates by comparing
their recorded `LastOriginal` echo with the first new message, then scans
for the most recently accessed entry.  Faithful to the source: the final
scan ranges over `conversations` (all candidates), not over the filtered
`entries`. -/
def disambiguateByLastOriginal (conversations : List ConversationEntry)
    (newMessages : List Message) : Option ConversationEntry :=
  match newMessages with
  | [] => none
  | assistantMsg :: _ =>
    let entries := conversations.filter (fun e =>
      match e.lastOriginal with
      | lo :: _ => messagesEqual lo assistantMsg
      | [] => false)
    match entries with
    | [] => none
    | e0 :: _ =>
      some (conversations.foldl
        (fun lasted e => if lasted.lastAccessed < e.lastAccessed then e else lasted) e0)

/-- FindConversation of the current revision (`part_003`): reject histories
shorter than two turns, try the exact fingerprint, then len-2 prefix
matching with echo disambiguation. -/
def FindConversation (t : ConvTable) (messages : List Message) : String × Bool :=
  if messages.length < 2 then ("", false)
  else
    match lookupTable (GenerateFingerprint messages) t with
    | some entry => (entry.conversationID, true)
    | none =>
      let pre := messages.take (messages.length - 2)
      let newMessages := messages.drop (messages.length - 2)
      match findConversationsWithPrefix t pre with
      | [] => ("", false)
      | [e] => (e.conversationID, true)
      | e1 :: e2 :: rest =>
        match disambiguateByLastOriginal (e1 :: e2 :: rest) newMessages with
        | some best => (best.conversationID, true)
        | none => ("", false)

/-- SetConversation registers a new entry keyed by the fingerprint, with
fresh timestamps and empty echo. -/
def SetConversation (t : ConvTable) (messages : List Message)
    (conversationID : String) (now : Nat) : ConvTable :=
  insertTable (GenerateFingerprint messages)
    ⟨conversationID, messages, [], now, now⟩ t

/-- filterDuplicateMessages keeps only the new messages that do not already
occur (role plus content) anywhere in the stored sequence. -/
def filterDuplicateMessages (existing newMsgs : List Message) : List Message :=
  newMsgs.filter (fun nm => ¬ existing.any (fun em => messagesEqual nm em))

/-- UpdateConversation extends the entry found by session id: drop the new
turns already stored, append the remainder, delete the old fingerprint key
and re-key under the extended fingerprint; refresh `lastAccessed` only when
nothing new remains. -/
def UpdateConversation (t : ConvTable) (conversationID : String)
    (newMessages : List Message) (now : Nat) : ConvTable :=
  match t.find? (fun kv => kv.2.conversationID = conversationID) with
  | none => t
  | some (k, e) =>
    let uniqueMessages := filterDuplicateMessages e.messages newMessages
    if uniqueMessages = [] then
      t.map (fun kv => if kv.1 = k then (kv.1, { e with lastAccessed := now }) else kv)
    else
      let extendedMessages := e.messages ++ uniqueMessages
      insertTable (GenerateFingerprint extendedMessages)
        { e with messages := extendedMessages, lastAccessed := now }
        (eraseTable (GenerateFingerprint e.messages) t)

/-- TokenInfo of the backend event (`tokenInfo` with `hasTokens` marker). -/
structure TokenInfo where
  promptTokens : Nat
  completionTokens : Nat
  totalTokens : Nat
  hasTokens : Bool
deriving DecidableEq, Repr

/-- Delta payload of the backend event's first choice. -/
structure LongCatDelta where
  role : String
  content : Text
deriving DecidableEq, Repr

/-- First choice of the backend event (the code reads `Choices[0]`
unconditionally, so the model carries that element directly). -/
structure LongCatChoice where
  delta : LongCatDelta
  finishReason : String
deriving DecidableEq, Repr

/-- LongCatResponse: one parsed backend stream event. -/
structure LongCatResponse where
  conversationID : String
  messageID : Int
  parentID : Int
  model : String
  content : Text
  contentStatus : String
  lastOne : Bool
  tokenInfo : TokenInfo
  choice0 : LongCatChoice
deriving DecidableEq, Repr

/-- Delta of an outgoing OpenAI-format chunk. -/
structure Delta where
  role : String
  content : Text
deriving DecidableEq, Repr

/-- Choice of an outgoing OpenAI-format chunk. -/
structure Choice where
  delta : Delta
  index : Nat
  finishReason : String
deriving DecidableEq, Repr

/-- ChatCompletionChunk: one OpenAI-format streamed frame (the wall-clock
`created` field is omitted, no modelled operation reads it). -/
structure ChatCompletionChunk where
  id : String
  object : String
  model : String
  choices : List Choice
deriving DecidableEq, Repr

/-- StreamProcessor state of `api/openai.go` (current revision,
`src/unnamed/part_001`). -/
structure StreamProcessor where
  conversationID : String
  messageID : Int
  parentID : Int
  responseID : String
  model : String
  accumulated : Text
  lastContent : Text
  finishReason : String
  tokenInfo : TokenInfo
deriving DecidableEq, Repr

/-- NewStreamProcessor with the uuid passed explicitly. -/
def NewStreamProcessor (rid : String) : StreamProcessor :=
  ⟨"", 0, 0, rid, "LongCat-Flash", [], [], "", ⟨0, 0, 0, false⟩⟩

/-- convertToOpenAIFormat (streaming branch of `api/openai.go`): use an
explicit backend delta verbatim when present; otherwise derive the delta
from the cumulative text by length comparison against the accumulated text,
falling back to the full cumulative text when it differs but is not longer;
append the emitted delta to the accumulated text; return a chunk only when
it carries content, a sticky finish reason, or a role announcement (the
trailing last-event special case of the source is modelled verbatim). -/
def convertToOpenAIFormat (p : StreamProcessor) (r : LongCatResponse) :
    StreamProcessor × Option ChatCompletionChunk :=
  let role := if r.choice0.delta.role ≠ "" ∧ r.contentStatus = "PROCESSING" then "assistant" else ""
  let content :=
    if r.choice0.delta.content ≠ [] then r.choice0.delta.content
    else if r.content ≠ [] then
      if p.accumulated.length < r.content.length then r.content.drop p.accumulated.length
      else if r.content ≠ p.accumulated then r.content
      else []
    else []
  let chunk : ChatCompletionChunk :=
    ⟨p.responseID, "chat.completion.chunk", p.model, [⟨⟨role, content⟩, 0, p.finishReason⟩]⟩
  let p1 := if content ≠ [] then { p with accumulated := p.accumulated ++ content } else p
  if content ≠ [] ∨ p.finishReason ≠ "" ∨ role ≠ "" then (p1, some chunk)
  else if (r.lastOne ∨ r.contentStatus = "FINISHED") ∧ r.content ≠ [] ∧ r.content ≠ p1.accumulated then
    (p1, some ⟨p.responseID, "chat.completion.chunk", p.model, [⟨⟨role, r.content⟩, 0, p.finishReason⟩]⟩)
  else (p1, none)

/-- Finish-reason determination of the per-event loop body of
`ProcessStream`: explicit reason first, else `stop` on the last-event flag,
else `stop` on a `FINISHED` content status. -/
def localFinishReason (r : LongCatResponse) : String :=
  if r.choice0.finishReason ≠ "" then r.choice0.finishReason
  else if r.lastOne then "stop"
  else if r.contentStatus = "FINISHED" then "stop"
  else ""

/-- Per-event body of `ProcessStream` (state updates, sticky finish reason,
then conversion), for the streaming case. -/
def processStreamEvent (p : StreamProcessor) (r : LongCatResponse) :
    StreamProcessor × Option ChatCompletionChunk :=
  let p1 := { p with conversationID := r.conversationID, messageID := r.messageID,
                     parentID := r.parentID }
  let p2 := if p1.model = "" then { p1 with model := r.model } else p1
  let p3 := if r.tokenInfo.hasTokens then { p2 with tokenInfo := r.tokenInfo } else p2
  let p4 := if r.content ≠ [] then { p3 with lastContent := r.content } else p3
  let fr := localFinishReason r
  let p5 := if fr ≠ "" then { p4 with finishReason := fr } else p4
  convertToOpenAIFormat p5 r

/-- Finish reason carried by the first choice of a chunk. -/
def chunkFinishReason0 (c : ChatCompletionChunk) : String :=
  match c.choices with
  | ch :: _ => ch.finishReason
  | [] => ""

/-- Delta text carried by the first choice of a chunk. -/
def chunkDelta (c : ChatCompletionChunk) : Text :=
  match c.choices with
  | ch :: _ => ch.delta.content
  | [] => []

/-- Final chunk synthesized by `ProcessStream` when the emitted chunk lacks
the finish reason (kept for fidelity; the condition never fires because the
emitted chunk already carries the sticky reason). -/
def finalChunk (c : ChatCompletionChunk) (fr : String) : ChatCompletionChunk :=
  ⟨c.id, c.object, c.model, [⟨⟨"", []⟩, 0, fr⟩]⟩

/-- Streaming loop of `ProcessStream` over the parsed backend events:
process each event, forward the produced chunk, and stop once the backend
signals completion (last-event flag or a `stop` local finish reason). -/
def runProcessStream (p : StreamProcessor) :
    List LongCatResponse → StreamProcessor × List ChatCompletionChunk
  | [] => (p, [])
  | r :: rest =>
    let fr := localFinishReason r
    let res := processStreamEvent p r
    let emitted := res.2.toList
    if r.lastOne ∨ fr = "stop" then
      let extra :=
        match res.2 with
        | some c => if chunkFinishReason0 c = "" ∧ fr ≠ "" then [finalChunk c fr] else []
        | none => []
      (res.1, emitted ++ extra)
    else
      let next := runProcessStream res.1 rest
      (next.1, emitted ++ next.2)

/-- Backend event that carries only cumulative text while processing (all
other payload fields empty), as in the delta-reconstruction test. -/
def mkContentEvent (c : Text) : LongCatResponse :=
  ⟨"", 0, 0, "", c, "PROCESSING", false, ⟨0, 0, 0, false⟩, ⟨⟨"", []⟩, ""⟩⟩

/-- Modelled from the spec: the successive suffix deltas of a cumulative
text sequence, each event contributing the part after the previous
cumulative text. -/
def specSuffixDeltas : Text → List Text → List Text
  | _, [] => []
  | acc, c :: rest => c.drop acc.length :: specSuffixDeltas c rest

/-- Each cumulative text strictly extends the previous one as a prefix. -/
def prefixChainB : Text → List Text → Bool
  | _, [] => true
  | acc, c :: rest => acc.isPrefixOf c && acc ≠ c && prefixChainB c rest

/-- mapToClaudeStopReason maps OpenAI finish reasons to Claude stop
reasons. -/
def mapToClaudeStopReason (openAIReason : String) : String :=
  if openAIReason = "stop" then "end_turn"
  else if openAIReason = "length" then "max_tokens"
  else if openAIReason = "content_filter" then "refusal"
  else "end_turn"

/-- ClaudeStreamChunk of `api/claude.go`, flattened: `deltaText` stands for
`Delta.Text`, the `md` fields for `MessageDelta.Delta.StopReason` and
`MessageDelta.Usage` (the optional pointers are populated exactly for the
chunk type that reads them). -/
structure ClaudeStreamChunk where
  type : String
  index : Nat
  deltaType : String
  deltaText : Text
  mdStopReason : String
  mdInputTokens : Nat
  mdOutputTokens : Nat
deriving DecidableEq, Repr

/-- convertOpenAIToClaudeChunk turns a generic chunk into a Claude stream
chunk: a content delta when delta text is present, else a message delta
when a finish reason is present, else nothing. -/
def convertOpenAIToClaudeChunk (c : ChatCompletionChunk) (tokenInfo : TokenInfo) :
    Option ClaudeStreamChunk :=
  match c.choices with
  | [] => none
  | choice :: _ =>
    if choice.delta.content ≠ [] then
      some ⟨"content_block_delta", 0, "text_delta", choice.delta.content, "", 0, 0⟩
    else if choice.finishReason ≠ "" then
      some ⟨"message_delta", 0, "", [], mapToClaudeStopReason choice.finishReason,
            tokenInfo.promptTokens, tokenInfo.completionTokens⟩
    else none

/-- Protocol-B framed events written to the response transport. -/
inductive ClaudeEvent where
  | messageStart (inputTokens outputTokens : Nat)
  | contentBlockStart
  | contentBlockDelta (text : Text)
  | contentBlockStop
  | messageDelta (stopReason : String) (inputTokens outputTokens : Nat)
  | messageStop
deriving DecidableEq, Repr

/-- Fixed fallback text of both adapters. -/
def fallbackText : Text :=
  "I apologize, but I\x27m unable to process your request at the moment.".data

/-- Event sequence written by `sendDefaultSequence`. -/
def sendDefaultSequence : List ClaudeEvent :=
  [.messageStart 0 0, .contentBlockStart, .contentBlockDelta fallbackText,
   .contentBlockStop, .messageDelta "end_turn" 0 0, .messageStop]

/-- Decides whether an event is a content block delta. -/
def isContentBlockDelta : ClaudeEvent → Bool
  | .contentBlockDelta _ => true
  | _ => false

/-- Loop body of `ClaudeService.HandleStreamingResponse` with the four
sent/received flags and the recorded usage as explicit state; on channel
close, the full default sequence is sent when nothing at all was received,
else the missing message delta and the message stop. -/
def claudeStreamLoop (sentMessageStart sentContentBlockStart sentMessageDelta
    hasReceivedContent : Bool) (inputTokens outputTokens : Nat) :
    List ClaudeStreamChunk → List ClaudeEvent
  | [] =>
    if ¬ hasReceivedContent then sendDefaultSequence
    else
      (if ¬ sentMessageDelta then [ClaudeEvent.messageDelta "end_turn" inputTokens outputTokens]
       else []) ++ [ClaudeEvent.messageStop]
  | c :: rest =>
    if c.type = "content_block_delta" then
      (if ¬ sentMessageStart then [ClaudeEvent.messageStart 0 0] else []) ++
      (if ¬ sentContentBlockStart then [ClaudeEvent.contentBlockStart] else []) ++
      ClaudeEvent.contentBlockDelta c.deltaText ::
      claudeStreamLoop true true sentMessageDelta true inputTokens outputTokens rest
    else if c.type = "message_delta" then
      (if ¬ sentMessageStart then [ClaudeEvent.messageStart c.mdInputTokens c.mdOutputTokens]
       else []) ++
      (if ¬ sentContentBlockStart then [ClaudeEvent.contentBlockStart] else []) ++
      ClaudeEvent.contentBlockStop ::
      ClaudeEvent.messageDelta c.mdStopReason c.mdInputTokens c.mdOutputTokens ::
      claudeStreamLoop true true true true c.mdInputTokens c.mdOutputTokens rest
    else
      claudeStreamLoop sentMessageStart sentContentBlockStart sentMessageDelta true
        inputTokens outputTokens rest

/-- ClaudeService.HandleStreamingResponse over the list of chunks its
conversion stage delivers before the channel closes. -/
def ClaudeHandleStreamingResponse (chunks : List ClaudeStreamChunk) : List ClaudeEvent :=
  claudeStreamLoop false false false false 0 0 chunks

/-- Usage block of the OpenAI non-streaming response. -/
structure Usage where
  promptTokens : Nat
  completionTokens : Nat
  totalTokens : Nat
deriving DecidableEq, Repr

/-- ChatCompletionResponse: the single OpenAI non-streaming response
object (wall-clock `created` omitted). -/
structure ChatCompletionResponse where
  id : String
  object : String
  model : String
  choices : List Choice
  usage : Usage
deriving DecidableEq, Repr

/-- Aggregation state of `OpenAIService.HandleNonStreamingResponse`. -/
structure OpenAIAggState where
  fullContent : Text
  finishReason : String
  responseID : String
  model : String
deriving DecidableEq, Repr

/-- Per-chunk body of the aggregation loop of
`OpenAIService.HandleNonStreamingResponse`: append the delta text, keep
the last non-empty finish reason, track id and model. -/
def openAINonStreamingStep (st : OpenAIAggState) (c : ChatCompletionChunk) :
    OpenAIAggState :=
  let st :=
    match c.choices with
    | ch :: _ =>
      { st with fullContent := st.fullContent ++ ch.delta.content,
                finishReason := if ch.finishReason ≠ "" then ch.finishReason
                                else st.finishReason }
    | [] => st
  { st with model := c.model, responseID := c.id }

/-- OpenAIService.HandleNonStreamingResponse: fold all received chunks,
appending delta text and keeping the last non-empty finish reason, then
emit one response object (its token info is never updated, so the usage
block stays zero). -/
def OpenAIHandleNonStreamingResponse (rid : String)
    (chunks : List ChatCompletionChunk) : ChatCompletionResponse :=
  let st := chunks.foldl openAINonStreamingStep
    (⟨[], "", rid, "LongCat-Flash"⟩ : OpenAIAggState)
  ⟨st.responseID, "chat.completion", st.model,
   [⟨⟨"assistant", st.fullContent⟩, 0, st.finishReason⟩], ⟨0, 0, 0⟩⟩

/-- Content block of the Claude non-streaming response. -/
structure ClaudeResponseContent where
  type : String
  text : Text
deriving DecidableEq, Repr

/-- ClaudeAPIResponse: the single Claude non-streaming response object. -/
structure ClaudeAPIResponse where
  id : String
  type : String
  role : String
  content : List ClaudeResponseContent
  model : String
  stopReason : String
  inputTokens : Nat
  outputTokens : Nat
deriving DecidableEq, Repr

/-- Dynamic item on the Claude handler's inbound channel: either a generic
OpenAI-format chunk (the only shape its type assertion accepts) or a Claude
stream chunk (what `ClaudeService.ConvertResponse` actually sends). -/
abbrev HandlerItem := Sum ChatCompletionChunk ClaudeStreamChunk

/-- Per-item body of the aggregation loop of
`ClaudeService.HandleNonStreamingResponse`: aggregate delta text and map
the last non-empty finish reason, but only for items that pass the
`ChatCompletionChunk` type assertion; token counts are never updated and
stay zero. -/
def claudeNonStreamingStep (st : Text × String) (item : HandlerItem) : Text × String :=
  match item with
  | Sum.inl openAIChunk =>
    match openAIChunk.choices with
    | ch :: _ =>
      (st.1 ++ ch.delta.content,
       if ch.finishReason ≠ "" then mapToClaudeStopReason ch.finishReason else st.2)
    | [] => st
  | Sum.inr _ => st

/-- Aggregation fold plus final response object of
`ClaudeService.HandleNonStreamingResponse`. -/
def ClaudeHandleNonStreamingResponse (rid : String)
    (items : List HandlerItem) : ClaudeAPIResponse :=
  let st := items.foldl claudeNonStreamingStep (([], "") : Text × String)
  ⟨rid, "message", "assistant", [⟨"text", st.1⟩], "LongCat-Flash", st.2, 0, 0⟩

/-- Processor state reached while translating a pure content stream: fresh
state except for the accumulated and last-seen cumulative text. -/
def procState (rid : String) (acc last : Text) : StreamProcessor :=
  ⟨"", 0, 0, rid, "LongCat-Flash", acc, last, "", ⟨0, 0, 0, false⟩⟩

/-- Two-entry resolver fixture: both entries share the one-turn prefix
`[{user,"a"}]`, with recorded echoes `"b1"` and `"b2"`; the `"b1"` entry
was accessed more recently. -/
def entryB1 : ConversationEntry :=
  ⟨"S1", [⟨"user", "a"⟩, ⟨"assistant", "b1"⟩], [⟨"assistant", "b1"⟩], 10, 0⟩

/-- Second fixture entry, recorded echo `"b2"`, older access time. -/
def entryB2 : ConversationEntry :=
  ⟨"S2", [⟨"user", "a"⟩, ⟨"assistant", "b2"⟩], [⟨"assistant", "b2"⟩], 5, 0⟩

/-- Fixture table in one iteration order. -/
def convTableA : ConvTable :=
  [(entryB1.messages, entryB1), (entryB2.messages, entryB2)]

/-- Fixture table in the other iteration order. -/
def convTableB : ConvTable :=
  [(entryB2.messages, entryB2), (entryB1.messages, entryB1)]

/-- Lookup whose len-2 tail starts with the echo `"b2"`. -/
def lookupQueryB2 : List Message :=
  [⟨"user", "a"⟩, ⟨"assistant", "b2"⟩, ⟨"user", "c"⟩]

/-- C1: evaluation of `FindConversation` at the failing input: with two
prefix candidates, where only the `"b2"` entry survives the echo filter but
the `"b1"` entry has the more recent access time, the code resolves to the
`"b1"` entry in either table iteration order — the final most-recent scan
ranges over all prefix candidates instead of the filtered survivors, so the
lookup returns a candidate that failed the echo filter. -/
theorem disambiguation_scans_all_candidates :
    FindConversation convTableA lookupQueryB2 = ("S1", true)
    ∧ FindConversation convTableB lookupQueryB2 = ("S1", true)
    ∧ disambiguateByLastOriginal [entryB1, entryB2] [⟨"assistant", "b2"⟩, ⟨"user", "c"⟩]
        = some entryB1
    ∧ disambiguateByLastOriginal [entryB2, entryB1] [⟨"assistant", "b2"⟩, ⟨"user", "c"⟩]
        = some entryB1
    ∧ entryB1.lastOriginal = [⟨"assistant", "b1"⟩]
    ∧ messagesEqual ⟨"assistant", "b1"⟩ ⟨"assistant", "b2"⟩ = false := by
  decide

/-- C5: a lookup with fewer than two turns always returns not-found,
whatever the table holds. -/
theorem findConversation_short_history_not_found (t : ConvTable)
    (messages : List Message) (h : messages.length < 2) :
    FindConversation t messages = ("", false) := by
  simp [FindConversation, h]

/-- Witness for C5 at a one-turn query against a table that stores exactly
that turn sequence. -/
theorem findConversation_short_history_not_found_witness :
    ([(⟨"user", "hi"⟩ : Message)].length < 2)
    ∧ FindConversation (SetConversation [] [⟨"user", "hi"⟩] "S1" 0) [⟨"user", "hi"⟩]
        = ("", false) :=
  ⟨by decide,
   findConversation_short_history_not_found
     (SetConversation [] [⟨"user", "hi"⟩] "S1" 0) [⟨"user", "hi"⟩] (by decide)⟩

/-- C6 counterexample: registering the single-turn sequence
`[{user,"hi"}]` as `S1` and looking up the same sequence returns
`("", false)`, not `("S1", true)` — the current `FindConversation` rejects
every history shorter than two turns before trying the exact match. -/
theorem single_turn_exact_match_counterexample :
    FindConversation (SetConversation [] [⟨"user", "hi"⟩] "S1" 0) [⟨"user", "hi"⟩]
      = ("", false)
    ∧ (("", false) : String × Bool) ≠ ("S1", true) := by
  decide

/-- C6 amended: exact-match resolution holds from two turns up: after
registering the two-turn sequence `[{user,"hi"},{assistant,"ok"}]` as `S1`,
looking up the same two-turn sequence returns `(S1, true)`, while the
registered single-turn sequence is still looked up as not-found. -/
theorem exact_match_resolution_two_turns :
    FindConversation
        (SetConversation [] [⟨"user", "hi"⟩, ⟨"assistant", "ok"⟩] "S1" 0)
        [⟨"user", "hi"⟩, ⟨"assistant", "ok"⟩] = ("S1", true)
    ∧ FindConversation (SetConversation [] [⟨"user", "hi"⟩] "S1" 0) [⟨"user", "hi"⟩]
        = ("", false) := by
  decide

/-- Looking up the key just inserted returns the inserted entry. -/
theorem lookupTable_insert_self (k : List Message) (v : ConversationEntry) (t : ConvTable) :
    lookupTable k (insertTable k v t) = some v := by
  simp [lookupTable, insertTable, List.find?]

/-- Looking up a key carried by no binding returns nothing. -/
theorem lookupTable_eq_none_of (t : ConvTable) (k : List Message)
    (h : ∀ kv ∈ t, kv.1 ≠ k) : lookupTable k t = none := by
  have hf : t.find? (fun kv => kv.1 = k) = none := by
    refine List.find?_eq_none.mpr ?_
    intro kv hkv
    simpa using h kv hkv
  simp [lookupTable, hf]

/-- Looking up an erased key returns nothing. -/
theorem lookupTable_erase_self (k : List Message) (t : ConvTable) :
    lookupTable k (eraseTable k t) = none := by
  refine lookupTable_eq_none_of _ _ ?_
  intro kv hkv
  simpa using List.of_mem_filter hkv

/-- Inserting under a different key leaves a lookup to fall through to the
erased table. -/
theorem lookupTable_insert_ne (k1 k2 : List Message) (v : ConversationEntry)
    (t : ConvTable) (h : k1 ≠ k2) :
    lookupTable k2 (insertTable k1 v t) = lookupTable k2 (eraseTable k1 t) := by
  simp [lookupTable, insertTable, List.find?, h]

/-- Replacing the value stored under a present key makes a lookup of that
key return the replacement. -/
theorem lookupTable_map_touch (t : ConvTable) (k : List Message)
    (e2 : ConversationEntry) (hmem : ∃ v, (k, v) ∈ t) :
    lookupTable k (t.map (fun kv => if kv.1 = k then (kv.1, e2) else kv)) = some e2 := by
  induction t with
  | nil => obtain ⟨v, hv⟩ := hmem; cases hv
  | cons kv t ih =>
    by_cases hk : kv.1 = k
    · simp [lookupTable, List.find?, hk]
    · obtain ⟨v, hv⟩ := hmem
      rcases List.mem_cons.mp hv with hv | hv
      · exact absurd (congrArg Prod.fst hv.symm) hk
      · have := ih ⟨v, hv⟩
        simpa [lookupTable, List.find?, hk] using this

/-- C4: with the entry located by session id, `UpdateConversation` appends
exactly the new turns not already stored, re-keys the entry under the
fingerprint of the extended sequence while the old fingerprint key
disappears, and stamps `lastAccessed`; when every new turn is a duplicate
it only refreshes `lastAccessed`; consequently registering
`[{user,a},{assistant,b}]` as `S1` and extending `S1` with
`[{user,c},{assistant,d}]` makes the four-turn lookup return `(S1, true)`
through the exact fingerprint match. -/
theorem update_conversation_extends_and_rekeys (t : ConvTable) (cid : String)
    (newMsgs : List Message) (now : Nat) (k : List Message) (e : ConversationEntry)
    (hfind : t.find? (fun kv => kv.2.conversationID = cid) = some (k, e)) :
    (filterDuplicateMessages e.messages newMsgs = [] →
      lookupTable k (UpdateConversation t cid newMsgs now)
        = some { e with lastAccessed := now })
    ∧ (filterDuplicateMessages e.messages newMsgs ≠ [] →
      lookupTable
          (GenerateFingerprint (e.messages ++ filterDuplicateMessages e.messages newMsgs))
          (UpdateConversation t cid newMsgs now)
        = some { e with
                  messages := e.messages ++ filterDuplicateMessages e.messages newMsgs,
                  lastAccessed := now }
      ∧ lookupTable (GenerateFingerprint e.messages)
          (UpdateConversation t cid newMsgs now) = none)
    ∧ FindConversation
        (UpdateConversation
          (SetConversation [] [⟨"user", "a"⟩, ⟨"assistant", "b"⟩] "S1" 0)
          "S1" [⟨"user", "c"⟩, ⟨"assistant", "d"⟩] 1)
        [⟨"user", "a"⟩, ⟨"assistant", "b"⟩, ⟨"user", "c"⟩, ⟨"assistant", "d"⟩]
        = ("S1", true)
    ∧ lookupTable
        (GenerateFingerprint
          [⟨"user", "a"⟩, ⟨"assistant", "b"⟩, ⟨"user", "c"⟩, ⟨"assistant", "d"⟩])
        (UpdateConversation
          (SetConversation [] [⟨"user", "a"⟩, ⟨"assistant", "b"⟩] "S1" 0)
          "S1" [⟨"user", "c"⟩, ⟨"assistant", "d"⟩] 1) ≠ none := by
  refine ⟨?_, ?_, by decide, by decide⟩
  · intro h0
    have hmem : ∃ v, (k, v) ∈ t := ⟨e, List.mem_of_find?_eq_some hfind⟩
    simp only [UpdateConversation, hfind]
    rw [if_pos h0]
    exact lookupTable_map_touch t k _ hmem
  · intro h0
    have hne : GenerateFingerprint (e.messages ++ filterDuplicateMessages e.messages newMsgs)
        ≠ GenerateFingerprint e.messages := by
      simp only [GenerateFingerprint]
      intro heq
      have hlen := congrArg List.length heq
      simp only [List.length_append] at hlen
      exact h0 (List.length_eq_zero.mp (by omega))
    constructor
    · simp only [UpdateConversation, hfind]
      rw [if_neg h0]
      exact lookupTable_insert_self _ _ _
    · simp only [UpdateConversation, hfind]
      rw [if_neg h0, lookupTable_insert_ne _ _ _ _ hne]
      refine lookupTable_eq_none_of _ _ ?_
      intro kv hkv
      simpa using List.of_mem_filter (List.mem_of_mem_filter hkv)

/-- Witness for C4: extending a registered conversation with an already
stored turn only refreshes the access time of the entry. -/
theorem update_conversation_extends_and_rekeys_witness :
    lookupTable [⟨"user", "a"⟩, ⟨"assistant", "b"⟩]
        (UpdateConversation
          (SetConversation [] [⟨"user", "a"⟩, ⟨"assistant", "b"⟩] "S1" 0)
          "S1" [⟨"user", "a"⟩] 1)
      = some ⟨"S1", [⟨"user", "a"⟩, ⟨"assistant", "b"⟩], [], 1, 0⟩ :=
  (update_conversation_extends_and_rekeys
    (SetConversation [] [⟨"user", "a"⟩, ⟨"assistant", "b"⟩] "S1" 0)
    "S1" [⟨"user", "a"⟩] 1
    [⟨"user", "a"⟩, ⟨"assistant", "b"⟩]
    ⟨"S1", [⟨"user", "a"⟩, ⟨"assistant", "b"⟩], [], 0, 0⟩
    (by decide)).1 (by decide)

/-- A message equality test succeeds exactly on equal messages. -/
theorem messagesEqual_iff (a b : Message) : messagesEqual a b = true ↔ a = b := by
  cases a; cases b
  simp [messagesEqual, Message.mk.injEq]

/-- The duplicate filter equals a plain membership filter against the
stored sequence. -/
theorem filterDuplicateMessages_eq_filter (existing newMsgs : List Message) :
    filterDuplicateMessages existing newMsgs
      = newMsgs.filter (fun nm => nm ∉ existing) := by
  unfold filterDuplicateMessages
  refine List.filter_congr ?_
  intro nm _
  simp [List.any_eq_true, messagesEqual_iff]

/-- Lookup after erasing a different key is unchanged. -/
theorem lookupTable_erase_ne (k fp : List Message) (t : ConvTable) (h : fp ≠ k) :
    lookupTable fp (eraseTable k t) = lookupTable fp t := by
  induction t with
  | nil => rfl
  | cons kv t ih =>
    by_cases hk : kv.1 = k
    · have hfp : kv.1 ≠ fp := fun hc => h (hc ▸ hk)
      simpa [lookupTable, eraseTable, List.find?, hk, hfp, h, Ne.symm h] using ih
    · by_cases hfp : kv.1 = fp
      · simp [lookupTable, eraseTable, List.find?, hk, hfp, h, Ne.symm h]
      · simpa [lookupTable, eraseTable, List.find?, hk, hfp, h, Ne.symm h] using ih

/-- Lookup through the value-replacing map used by the timestamp-refresh
branch: the looked-up value is replaced exactly when the key matches. -/
theorem lookupTable_map_touch2 (t : ConvTable) (k fp : List Message)
    (e2 : ConversationEntry) :
    lookupTable fp (t.map (fun kv => if kv.1 = k then (kv.1, e2) else kv))
      = (lookupTable fp t).map (fun v => if fp = k then e2 else v) := by
  induction t with
  | nil => rfl
  | cons kv t ih =>
    by_cases hk : kv.1 = k
    · by_cases hfp : kv.1 = fp
      · have hfk : fp = k := hfp ▸ hk
        simp [lookupTable, List.find?, hk, hfp, hfk]
      · have hfk : fp ≠ k := fun hc => hfp (hc ▸ hk)
        simpa [lookupTable, List.find?, hk, hfp, hfk, Ne.symm hfk] using ih
    · by_cases hfp : kv.1 = fp
      · have hfk : fp ≠ k := fun hc => hk (by rw [hfp, hc])
        simp [lookupTable, List.find?, hk, hfp, hfk, Ne.symm hfk]
      · simpa [lookupTable, List.find?, hk, hfp] using ih

/-- C10: the duplicate filter of `UpdateConversation` compares each new
turn by role-plus-content equality against every turn anywhere in the
stored sequence (a plain membership filter), so a new turn equal to any
previously stored turn is never appended; consequently the occurrence
count of such a turn in the stored sequence of every entry reachable after
the update is unchanged. -/
theorem update_conversation_never_duplicates (t : ConvTable) (cid : String)
    (newMsgs : List Message) (now : Nat) (k : List Message) (e : ConversationEntry)
    (m : Message)
    (hfind : t.find? (fun kv => kv.2.conversationID = cid) = some (k, e))
    (hm : m ∈ e.messages) :
    filterDuplicateMessages e.messages newMsgs
      = newMsgs.filter (fun nm => nm ∉ e.messages)
    ∧ m ∉ filterDuplicateMessages e.messages newMsgs
    ∧ (e.messages ++ filterDuplicateMessages e.messages newMsgs).count m
        = e.messages.count m
    ∧ ∀ fp e2, lookupTable fp (UpdateConversation t cid newMsgs now) = some e2 →
        lookupTable fp t = some e2 ∨ e2.messages.count m = e.messages.count m := by
  have hfe := filterDuplicateMessages_eq_filter e.messages newMsgs
  have hnotmem : m ∉ filterDuplicateMessages e.messages newMsgs := by
    rw [hfe]
    intro hmem
    have h2 := (List.mem_filter.mp hmem).2
    simp only [decide_eq_true_eq] at h2
    exact h2 hm
  have hcount : (e.messages ++ filterDuplicateMessages e.messages newMsgs).count m
      = e.messages.count m := by
    rw [List.count_append, List.count_eq_zero.mpr hnotmem]
    omega
  refine ⟨hfe, hnotmem, hcount, ?_⟩
  intro fp e2 hlook
  by_cases h0 : filterDuplicateMessages e.messages newMsgs = []
  · simp only [UpdateConversation, hfind] at hlook
    rw [if_pos h0, lookupTable_map_touch2] at hlook
    by_cases hfk : fp = k
    · rw [hfk] at hlook ⊢
      cases hl : lookupTable k t with
      | none => rw [hl] at hlook; cases hlook
      | some v =>
        rw [hl] at hlook
        simp only [Option.map_some, if_pos rfl] at hlook
        right
        rw [← Option.some.injEq] at hlook
        cases hlook
        rfl
    · left
      cases hl : lookupTable fp t with
      | none => rw [hl] at hlook; cases hlook
      | some v =>
        rw [hl] at hlook
        simpa [hfk] using hlook
  · simp only [UpdateConversation, hfind] at hlook
    rw [if_neg h0] at hlook
    by_cases hfp : fp = GenerateFingerprint (e.messages ++ filterDuplicateMessages e.messages newMsgs)
    · rw [hfp, lookupTable_insert_self] at hlook
      right
      cases hlook
      simpa using hcount
    · rw [lookupTable_insert_ne _ _ _ _ (fun hc => hfp hc.symm)] at hlook
      by_cases hold : fp = GenerateFingerprint e.messages
      · rw [hold] at hlook
        rw [lookupTable_erase_ne _ _ _ (by rw [← hold]; exact hfp)] at hlook
        rw [lookupTable_erase_self] at hlook
        cases hlook
      · rw [lookupTable_erase_ne _ _ _ hfp, lookupTable_erase_ne _ _ _ hold] at hlook
        exact Or.inl hlook

/-- Witness for C10: the user turn `{user,"a"}` re-sent inside the new
turns is filtered out because it already occurs in the stored sequence. -/
theorem update_conversation_never_duplicates_witness :
    (⟨"user", "a"⟩ : Message)
      ∉ filterDuplicateMessages [⟨"user", "a"⟩, ⟨"assistant", "b"⟩]
          [⟨"user", "a"⟩, ⟨"user", "c"⟩] :=
  (update_conversation_never_duplicates
    (SetConversation [] [⟨"user", "a"⟩, ⟨"assistant", "b"⟩] "S1" 0)
    "S1" [⟨"user", "a"⟩, ⟨"user", "c"⟩] 1
    [⟨"user", "a"⟩, ⟨"assistant", "b"⟩]
    ⟨"S1", [⟨"user", "a"⟩, ⟨"assistant", "b"⟩], [], 0, 0⟩
    ⟨"user", "a"⟩ (by decide) (by decide)).2.1

/-- Conversion to the OpenAI format never changes the sticky finish reason
of the processor state (it only appends to the accumulated text). -/
theorem convertToOpenAIFormat_keeps_finishReason (p : StreamProcessor)
    (r : LongCatResponse) :
    ((convertToOpenAIFormat p r).1).finishReason = p.finishReason := by
  simp only [convertToOpenAIFormat]
  repeat' split
  all_goals rfl

/-- The per-event state update sets the sticky finish reason from the local
one exactly when the local one is non-empty. -/
theorem processStreamEvent_finishReason (p : StreamProcessor) (r : LongCatResponse) :
    (processStreamEvent p r).1.finishReason
      = if localFinishReason r ≠ "" then localFinishReason r else p.finishReason := by
  simp only [processStreamEvent, convertToOpenAIFormat_keeps_finishReason]
  by_cases hfr : localFinishReason r ≠ ""
  · rw [if_pos hfr, if_pos hfr]
  · rw [if_neg hfr, if_neg hfr]
    repeat' split
    all_goals rfl

/-- C7: for every backend event, the processor determines the finish
reason with the priority explicit-field, then last-event flag, then
`FINISHED` content status, keeping the previous sticky value otherwise;
hence once the sticky finish reason is non-empty, no later event clears it
or replaces it with an empty value. -/
theorem finish_reason_priority_and_sticky (p : StreamProcessor) (r : LongCatResponse) :
    (processStreamEvent p r).1.finishReason
      = (if r.choice0.finishReason ≠ "" then r.choice0.finishReason
         else if r.lastOne then "stop"
         else if r.contentStatus = "FINISHED" then "stop"
         else p.finishReason)
    ∧ (p.finishReason ≠ "" → (processStreamEvent p r).1.finishReason ≠ "") := by
  have hmain : (processStreamEvent p r).1.finishReason
      = (if r.choice0.finishReason ≠ "" then r.choice0.finishReason
         else if r.lastOne then "stop"
         else if r.contentStatus = "FINISHED" then "stop"
         else p.finishReason) := by
    rw [processStreamEvent_finishReason]
    by_cases h1 : r.choice0.finishReason = ""
    · by_cases h2 : r.lastOne
      · simp [localFinishReason, h1, h2]
      · by_cases h3 : r.contentStatus = "FINISHED"
        · simp [localFinishReason, h1, h2, h3]
        · simp [localFinishReason, h1, h2, h3]
    · simp [localFinishReason, h1]
  refine ⟨hmain, fun hp => ?_⟩
  rw [hmain]
  by_cases h1 : r.choice0.finishReason = ""
  · by_cases h2 : r.lastOne
    · simp [h1, h2]
    · by_cases h3 : r.contentStatus = "FINISHED"
      · simp [h1, h2, h3]
      · simpa [h1, h2, h3] using hp
  · simp [h1]

/-- Witness for C7: an already-set `stop` finish reason survives a plain
content event. -/
theorem finish_reason_priority_and_sticky_witness :
    (processStreamEvent
        ⟨"", 0, 0, "w", "LongCat-Flash", [], [], "stop", ⟨0, 0, 0, false⟩⟩
        (mkContentEvent [])).1.finishReason ≠ "" :=
  (finish_reason_priority_and_sticky
    ⟨"", 0, 0, "w", "LongCat-Flash", [], [], "stop", ⟨0, 0, 0, false⟩⟩
    (mkContentEvent [])).2 (by decide)

/-- One translation step on a cumulative event that strictly extends the
accumulated text emits exactly the new suffix and accumulates it. -/
theorem processStreamEvent_cumulative (rid : String) (acc last s : Text) (hs : s ≠ []) :
    processStreamEvent (procState rid acc last) (mkContentEvent (acc ++ s))
      = (procState rid (acc ++ s) (acc ++ s),
         some ⟨rid, "chat.completion.chunk", "LongCat-Flash", [⟨⟨"", s⟩, 0, ""⟩]⟩) := by
  have hslen : 0 < s.length := List.length_pos.mpr hs
  have hlen : acc.length < (acc ++ s).length := by
    simp only [List.length_append]; omega
  have happ : acc ++ s ≠ [] := by simp [hs]
  simp [processStreamEvent, mkContentEvent, localFinishReason, convertToOpenAIFormat,
        procState, happ, hlen, hslen, List.drop_left, hs]

/-- Over a chain of strictly extending cumulative texts, the emitted chunk
deltas are exactly the successive suffix deltas. -/
theorem runProcessStream_chain (rid : String) : ∀ (cs : List Text) (acc last : Text),
    prefixChainB acc cs = true →
    (runProcessStream (procState rid acc last) (cs.map mkContentEvent)).2.map chunkDelta
      = specSuffixDeltas acc cs := by
  intro cs
  induction cs with
  | nil =>
    intro acc last _
    simp [runProcessStream, specSuffixDeltas]
  | cons c rest ih =>
    intro acc last h
    simp only [prefixChainB, Bool.and_eq_true, decide_eq_true_eq] at h
    obtain ⟨⟨hpre, hne⟩, hrest⟩ := h
    obtain ⟨s, rfl⟩ := List.isPrefixOf_iff_prefix.mp hpre
    have hs : s ≠ [] := by
      intro h0
      rw [h0] at hne
      simp at hne
    have hstep := processStreamEvent_cumulative rid acc last s hs
    have hfr : localFinishReason (mkContentEvent (acc ++ s)) = "" := by
      simp [localFinishReason, mkContentEvent]
    have hlast : (mkContentEvent (acc ++ s)).lastOne = false := rfl
    simp only [List.map_cons, runProcessStream, hstep, hfr, hlast]
    simp [chunkDelta, specSuffixDeltas, List.drop_left, ih (acc ++ s) (acc ++ s) hrest]

/-- Joining the successive suffix deltas of a prefix chain onto the
initial accumulated text reconstructs the final cumulative text. -/
theorem specSuffixDeltas_join : ∀ (cs : List Text) (acc : Text),
    prefixChainB acc cs = true →
    (specSuffixDeltas acc cs).foldl (fun a b => a ++ b) acc = cs.getLastD acc := by
  intro cs
  induction cs with
  | nil => intro acc _; rfl
  | cons c rest ih =>
    intro acc h
    simp only [prefixChainB, Bool.and_eq_true, decide_eq_true_eq] at h
    obtain ⟨⟨hpre, _⟩, hrest⟩ := h
    obtain ⟨s, rfl⟩ := List.isPrefixOf_iff_prefix.mp hpre
    simp only [specSuffixDeltas, List.foldl_cons, List.drop_left, List.getLastD_cons]
    exact ih (acc ++ s) hrest

/-- C2: feeding the translator backend events whose cumulative texts each
strictly extend the already accumulated text as a prefix makes it emit
exactly the successive suffix deltas, and the concatenation of all emitted
deltas equals the final cumulative text. -/
theorem translator_delta_reconstruction (rid : String) (cs : List Text)
    (h : prefixChainB [] cs = true) :
    (runProcessStream (NewStreamProcessor rid) (cs.map mkContentEvent)).2.map chunkDelta
      = specSuffixDeltas [] cs
    ∧ ((runProcessStream (NewStreamProcessor rid) (cs.map mkContentEvent)).2.map
        chunkDelta).foldl (fun a b => a ++ b) [] = cs.getLastD [] := by
  have h0 : NewStreamProcessor rid = procState rid [] [] := rfl
  rw [h0]
  have h1 := runProcessStream_chain rid cs [] [] h
  refine ⟨h1, ?_⟩
  rw [h1]
  exact specSuffixDeltas_join cs [] h

/-- Witness for C2: the cumulative sequence "He", "Hello", "Hello!" yields
the deltas "He", "llo", "!", whose concatenation is "Hello!". -/
theorem translator_delta_reconstruction_witness :
    prefixChainB [] ["He".data, "Hello".data, "Hello!".data] = true
    ∧ specSuffixDeltas [] ["He".data, "Hello".data, "Hello!".data]
        = ["He".data, "llo".data, "!".data]
    ∧ ["Hello!".data].getLastD [] = "Hello!".data
    ∧ ((runProcessStream (NewStreamProcessor "w")
          (["He".data, "Hello".data, "Hello!".data].map mkContentEvent)).2.map chunkDelta
        = specSuffixDeltas [] ["He".data, "Hello".data, "Hello!".data]
      ∧ ((runProcessStream (NewStreamProcessor "w")
          (["He".data, "Hello".data, "Hello!".data].map mkContentEvent)).2.map
          chunkDelta).foldl (fun a b => a ++ b) []
        = ["He".data, "Hello".data, "Hello!".data].getLastD []) :=
  ⟨by decide, by decide, by decide,
   translator_delta_reconstruction "w" ["He".data, "Hello".data, "Hello!".data] (by decide)⟩

/-- C3 counterexample: after accumulating "Hello", a backend event whose
cumulative text "Goodbye!" is non-empty and does not extend the
accumulated text as a prefix makes the translator emit the sliced suffix
"ye!" — not the full cumulative text — because the divergence check only
fires when the cumulative text is not longer than the accumulated text. -/
theorem translator_divergent_text_counterexample :
    ((runProcessStream (NewStreamProcessor "w")
        [mkContentEvent "Hello".data, mkContentEvent "Goodbye!".data]).2.map chunkDelta)
      = ["Hello".data, "ye!".data]
    ∧ ("Hello".data).isPrefixOf "Goodbye!".data = false
    ∧ "Goodbye!".data ≠ ([] : Text)
    ∧ "ye!".data ≠ "Goodbye!".data
    ∧ (convertToOpenAIFormat (procState "w" "Hello".data "Hello".data)
        (mkContentEvent "Goodbye!".data)).2.map chunkDelta = some "ye!".data := by
  decide

/-- C3 amended: when the event carries no explicit delta and its cumulative
text is non-empty and differs from the accumulated text, the translator
emits the full cumulative text exactly when the cumulative text is not
longer than the accumulated text; when it is longer it instead emits the
suffix starting at the accumulated length, even if the cumulative text is
not a prefix extension. -/
theorem convert_divergence_policy (p : StreamProcessor) (r : LongCatResponse)
    (hdelta : r.choice0.delta.content = [])
    (hne : r.content ≠ [])
    (hdiff : r.content ≠ p.accumulated) :
    (¬ p.accumulated.length < r.content.length →
      ((convertToOpenAIFormat p r).2).map chunkDelta = some r.content)
    ∧ (p.accumulated.length < r.content.length →
      ((convertToOpenAIFormat p r).2).map chunkDelta
        = some (r.content.drop p.accumulated.length)) := by
  constructor
  · intro hlen
    simp [convertToOpenAIFormat, hdelta, hne, hlen, hdiff, chunkDelta]
  · intro hlen
    have hdropne : r.content.drop p.accumulated.length ≠ [] := by
      intro h0
      have hle := List.drop_eq_nil_iff.mp h0
      omega
    simp [convertToOpenAIFormat, hdelta, hne, hlen, hdropne, chunkDelta]

/-- Witness for C3 amended: accumulated "Hello", cumulative "Hi" (shorter,
different): the full cumulative text is emitted as the delta. -/
theorem convert_divergence_policy_witness :
    (convertToOpenAIFormat (procState "w" "Hello".data []) (mkContentEvent "Hi".data)).2.map
        chunkDelta = some "Hi".data :=
  (convert_divergence_policy (procState "w" "Hello".data []) (mkContentEvent "Hi".data)
    (by decide) (by decide) (by decide)).1 (by decide)

/-- C8 counterexample: a generic stream consisting of one finish-only
chunk (empty delta text, finish reason `stop`) produces zero ContentDelta
events, yet the streaming adapter does not emit the fallback
`content_block_delta`: the default sequence is sent only when no chunk of
any kind arrives, so the output contains no `content_block_delta` at
all. -/
theorem claude_stream_finish_only_counterexample :
    chunkDelta ⟨"id", "chat.completion.chunk", "LongCat-Flash", [⟨⟨"", []⟩, 0, "stop"⟩]⟩
      = []
    ∧ (([⟨"id", "chat.completion.chunk", "LongCat-Flash",
          [⟨⟨"", []⟩, 0, "stop"⟩]⟩] : List ChatCompletionChunk).filterMap
        (fun c => convertOpenAIToClaudeChunk c ⟨0, 0, 0, false⟩))
      = [⟨"message_delta", 0, "", [], "end_turn", 0, 0⟩]
    ∧ ClaudeHandleStreamingResponse [⟨"message_delta", 0, "", [], "end_turn", 0, 0⟩]
      = [.messageStart 0 0, .contentBlockStart, .contentBlockStop,
         .messageDelta "end_turn" 0 0, .messageStop]
    ∧ (ClaudeHandleStreamingResponse
        [⟨"message_delta", 0, "", [], "end_turn", 0, 0⟩]).filter isContentBlockDelta
      = [] := by
  decide

/-- C8 amended: when the conversion stage delivers no chunk at all, the
streaming adapter emits the complete fixed envelope exactly once each in
order — message start, content block start, one content block delta
carrying the fallback text, content block stop, message delta, message
stop. -/
theorem claude_stream_empty_default_sequence :
    ClaudeHandleStreamingResponse [] = sendDefaultSequence
    ∧ sendDefaultSequence
      = [.messageStart 0 0, .contentBlockStart, .contentBlockDelta fallbackText,
         .contentBlockStop, .messageDelta "end_turn" 0 0, .messageStop]
    ∧ sendDefaultSequence.filter isContentBlockDelta
      = [.contentBlockDelta fallbackText] := by
  decide

/-- Folding list append from an arbitrary initial text prepends it. -/
theorem foldl_append_init (l : List Text) (x : Text) :
    l.foldl (fun a b => a ++ b) x = x ++ l.foldl (fun a b => a ++ b) [] := by
  induction l generalizing x with
  | nil => simp
  | cons c l ih =>
    simp only [List.foldl_cons, List.nil_append]
    rw [ih (x ++ c), ih c, List.append_assoc]

/-- The OpenAI aggregation fold appends exactly the chunk deltas in
arrival order. -/
theorem openAI_fold_fullContent : ∀ (chunks : List ChatCompletionChunk)
    (st : OpenAIAggState),
    (chunks.foldl openAINonStreamingStep st).fullContent
      = st.fullContent ++ (chunks.map chunkDelta).foldl (fun a b => a ++ b) [] := by
  intro chunks
  induction chunks with
  | nil => intro st; simp
  | cons c rest ih =>
    intro st
    have hstep : (openAINonStreamingStep st c).fullContent
        = st.fullContent ++ chunkDelta c := by
      cases hc : c.choices with
      | nil => simp [openAINonStreamingStep, chunkDelta, hc]
      | cons ch chs => simp [openAINonStreamingStep, chunkDelta, hc]
    simp only [List.foldl_cons, List.map_cons, List.nil_append]
    rw [ih, hstep, foldl_append_init (rest.map chunkDelta) (chunkDelta c),
        List.append_assoc]

/-- The OpenAI aggregation fold keeps the last non-empty finish reason. -/
theorem openAI_fold_finishReason : ∀ (chunks : List ChatCompletionChunk)
    (st : OpenAIAggState),
    (chunks.foldl openAINonStreamingStep st).finishReason
      = ((chunks.map chunkFinishReason0).filter (fun s => s ≠ "")).getLastD
          st.finishReason := by
  intro chunks
  induction chunks with
  | nil => intro st; simp
  | cons c rest ih =>
    intro st
    have hstep : (openAINonStreamingStep st c).finishReason
        = if chunkFinishReason0 c ≠ "" then chunkFinishReason0 c
          else st.finishReason := by
      cases hc : c.choices with
      | nil => simp [openAINonStreamingStep, chunkFinishReason0, hc]
      | cons ch chs => simp [openAINonStreamingStep, chunkFinishReason0, hc]
    simp only [List.foldl_cons, List.map_cons]
    by_cases hfr : chunkFinishReason0 c = ""
    · rw [ih, hstep, if_neg (by simp [hfr]), List.filter_cons_of_neg (by simp [hfr])]
    · rw [ih, hstep, if_pos hfr, List.filter_cons_of_pos (by simpa using hfr),
          List.getLastD_cons]

/-- The Claude aggregation fold appends the deltas of exactly those items
that are generic chunks. -/
theorem claude_fold_fst : ∀ (items : List HandlerItem) (st : Text × String),
    (items.foldl claudeNonStreamingStep st).1
      = st.1 ++ ((items.filterMap Sum.getLeft?).map chunkDelta).foldl
          (fun a b => a ++ b) [] := by
  intro items
  induction items with
  | nil => intro st; simp
  | cons item rest ih =>
    intro st
    cases item with
    | inl c =>
      have hstep : (claudeNonStreamingStep st (Sum.inl c)).1 = st.1 ++ chunkDelta c := by
        cases hc : c.choices with
        | nil => simp [claudeNonStreamingStep, chunkDelta, hc]
        | cons ch chs => simp [claudeNonStreamingStep, chunkDelta, hc]
      simp only [List.foldl_cons, List.filterMap_cons, Sum.getLeft?, List.map_cons,
        List.nil_append]
      rw [ih, hstep, foldl_append_init ((rest.filterMap Sum.getLeft?).map chunkDelta)
        (chunkDelta c), List.append_assoc]
    | inr c =>
      have hstep : claudeNonStreamingStep st (Sum.inr c) = st := rfl
      simp only [List.foldl_cons, List.filterMap_cons, Sum.getLeft?, hstep]
      exact ih st

/-- The Claude aggregation fold maps the last non-empty finish reason of
the generic-chunk items through the stop-reason table. -/
theorem claude_fold_snd : ∀ (items : List HandlerItem) (st : Text × String),
    (items.foldl claudeNonStreamingStep st).2
      = ((((items.filterMap Sum.getLeft?).map chunkFinishReason0).filter
            (fun s => s ≠ "")).map mapToClaudeStopReason).getLastD st.2 := by
  intro items
  induction items with
  | nil => intro st; simp
  | cons item rest ih =>
    intro st
    cases item with
    | inl c =>
      have hstep : (claudeNonStreamingStep st (Sum.inl c)).2
          = if chunkFinishReason0 c ≠ ""
            then mapToClaudeStopReason (chunkFinishReason0 c) else st.2 := by
        cases hc : c.choices with
        | nil => simp [claudeNonStreamingStep, chunkFinishReason0, hc]
        | cons ch chs => simp [claudeNonStreamingStep, chunkFinishReason0, hc]
      simp only [List.foldl_cons, List.filterMap_cons, Sum.getLeft?, List.map_cons]
      by_cases hfr : chunkFinishReason0 c = ""
      · rw [ih, hstep, if_neg (by simp [hfr]), List.filter_cons_of_neg (by simp [hfr])]
      · rw [ih, hstep, if_pos hfr, List.filter_cons_of_pos (by simpa using hfr),
            List.map_cons, List.getLastD_cons]
    | inr c =>
      have hstep : claudeNonStreamingStep st (Sum.inr c) = st := rfl
      simp only [List.foldl_cons, List.filterMap_cons, Sum.getLeft?, hstep]
      exact ih st

/-- C9 counterexample: when no content arrives, neither non-streaming
handler substitutes the streaming fallback text — both emit an empty
content string; moreover the Claude handler drops even a delta-carrying
chunk of its own Claude chunk type (the only shape its conversion stage
produces), because its type assertion only accepts generic chunks. -/
theorem nonstreaming_no_fallback_counterexample :
    (OpenAIHandleNonStreamingResponse "id" []).choices
      = [⟨⟨"assistant", []⟩, 0, ""⟩]
    ∧ (ClaudeHandleNonStreamingResponse "id" []).content = [⟨"text", []⟩]
    ∧ ([] : Text) ≠ fallbackText
    ∧ (ClaudeHandleNonStreamingResponse "id"
        [Sum.inr ⟨"content_block_delta", 0, "text_delta", "Hi".data, "", 0, 0⟩]).content
      = [⟨"text", []⟩] := by
  decide

/-- C9 amended: in non-streaming mode the format A handler aggregates all
chunk delta text in arrival order and keeps the last non-empty finish
reason; the format B handler does the same but only over the items that
are format A chunks, mapping the reason through the stop-reason table;
each emits exactly one response object; usage stays zero, and when no
content arrived the content string is empty — the streaming fallback text
is not substituted. -/
theorem nonstreaming_aggregation (rid : String) (chunks : List ChatCompletionChunk)
    (items : List HandlerItem) :
    (OpenAIHandleNonStreamingResponse rid chunks).choices
      = [⟨⟨"assistant", (chunks.map chunkDelta).foldl (fun a b => a ++ b) []⟩, 0,
         ((chunks.map chunkFinishReason0).filter (fun s => s ≠ "")).getLastD ""⟩]
    ∧ (OpenAIHandleNonStreamingResponse rid chunks).usage = ⟨0, 0, 0⟩
    ∧ (ClaudeHandleNonStreamingResponse rid items).content
      = [⟨"text", ((items.filterMap Sum.getLeft?).map chunkDelta).foldl
          (fun a b => a ++ b) []⟩]
    ∧ (ClaudeHandleNonStreamingResponse rid items).stopReason
      = ((((items.filterMap Sum.getLeft?).map chunkFinishReason0).filter
            (fun s => s ≠ "")).map mapToClaudeStopReason).getLastD ""
    ∧ (ClaudeHandleNonStreamingResponse rid items).inputTokens = 0
    ∧ (ClaudeHandleNonStreamingResponse rid items).outputTokens = 0 := by
  refine ⟨?_, rfl, ?_, ?_, rfl, rfl⟩
  · have h1 := openAI_fold_fullContent chunks ⟨[], "", rid, "LongCat-Flash"⟩
    have h2 := openAI_fold_finishReason chunks ⟨[], "", rid, "LongCat-Flash"⟩
    simp only [OpenAIHandleNonStreamingResponse]
    rw [h1, h2]
    rfl
  · have h1 := claude_fold_fst items ([], "")
    simp only [ClaudeHandleNonStreamingResponse]
    rw [h1]
    rfl
  · have h2 := claude_fold_snd items ([], "")
    simp only [ClaudeHandleNonStreamingResponse]
    rw [h2]
